import Mathlib

/-!
Verification development for the movie-renamer application (src/main.py).

The filename normalizer (`_process_files_thread`, lines 713-745) and the
TMDB match resolver (`search_tmdb`, lines 773-854) are embedded as
executable Lean functions over character lists and strings.  Each regex
substitution of the Python source is translated into an explicit
left-to-right scanner with the same matching semantics (leftmost match,
ordered alternation, word-boundary checks against the original string,
resumption after the end of the replaced span).  The ASCII fragment of
the Python semantics is modelled: word characters are [A-Za-z0-9_],
whitespace is the Python str whitespace set.
-/

/-- Python str whitespace set used by strip and split. -/
def pyWs (c : Char) : Bool :=
  c = ' ' || c = '\t' || c = '\n' || c = '\r' || c = '\x0b' || c = '\x0c'

/-- Regex word character, as in Python re \w over ASCII. -/
def isWordChar (c : Char) : Bool :=
  c.isAlphanum || c = '_'

/-- Separator characters of the character class [._-]. -/
def isSep (c : Char) : Bool :=
  c = '.' || c = '_' || c = '-'

/-- Separator class of the year regex [._\s-]: dot, underscore, dash or whitespace. -/
def isSepY (c : Char) : Bool :=
  isSep c || pyWs c

/-- Python str.strip(): drop leading and trailing whitespace. -/
def pyStrip (l : List Char) : List Char :=
  ((l.dropWhile pyWs).reverse.dropWhile pyWs).reverse

/-- Lowercase a character list (ASCII case folding, as Python str.lower on ASCII). -/
def lowerL (l : List Char) : List Char :=
  l.map Char.toLower

/-- Python str.lower() on strings. -/
def lowerS (s : String) : String :=
  ⟨lowerL s.data⟩

/-- re.search(r'\((\d{4})\)', name): leftmost parenthesized 4-digit group,
returning the captured digits (main.py line 720). -/
def findParenYear : List Char → Option (List Char)
  | [] => none
  | '(' :: d1 :: d2 :: d3 :: d4 :: c5 :: rest =>
    if d1.isDigit && d2.isDigit && d3.isDigit && d4.isDigit && c5 = ')' then
      some [d1, d2, d3, d4]
    else
      findParenYear (d1 :: d2 :: d3 :: d4 :: c5 :: rest)
  | _ :: rest => findParenYear rest

/-- re.search(r'[._\s-]([12]\d{3})[._\s-]', name): leftmost 4-digit token
starting with 1 or 2 that is enclosed in separator characters on both
sides, returning the captured digits (main.py lines 724-725). -/
def sepYearAt : List Char → Bool
  | y1 :: y2 :: y3 :: y4 :: s2 :: _ =>
    (y1 = '1' || y1 = '2') && y2.isDigit && y3.isDigit && y4.isDigit && isSepY s2
  | _ => false

/-- Scanner for the year regex search: at each position, a separator
followed by a 1xxx/2xxx digit quadruple followed by a separator matches;
otherwise the search advances one character (see `sepYearAt`). -/
def findSepYear : List Char → Option (List Char)
  | [] => none
  | c :: rest =>
    if isSepY c && sepYearAt rest then some (rest.take 4)
    else findSepYear rest

/-- Year extraction priority of main.py lines 719-727: parenthesized year
first, else separator-enclosed standalone year. -/
def extractYear (l : List Char) : Option (List Char) :=
  match findParenYear l with
  | some y => some y
  | none => findSepYear l

/-- Whether four digits and a closing parenthesis follow the current
position (the text after an opening parenthesis). -/
def parenYearAt : List Char → Bool
  | d1 :: d2 :: d3 :: d4 :: c5 :: _ =>
    d1.isDigit && d2.isDigit && d3.isDigit && d4.isDigit && c5 = ')'
  | _ => false

/-- Fuelled scanner for re.sub(r'\(\d{4}\)', '', name): remove every
parenthesized 4-digit group (main.py line 731). -/
def rpF : Nat → List Char → List Char
  | 0, l => l
  | _ + 1, [] => []
  | f + 1, c :: rest =>
    if c = '(' && parenYearAt rest then rpF f (rest.drop 5)
    else c :: rpF f rest

/-- Parenthesized-year removal step. -/
def rmParenYear (l : List Char) : List Char :=
  rpF l.length l

/-- Drop everything up to and including the first ']' or '}'; none when no
closing delimiter exists or a newline intervenes first: the span interior
is matched by '.' without DOTALL, which cannot match a newline, so a
closer beyond a newline is unreachable from this opening position. -/
def splitAtCloser : List Char → Option (List Char)
  | [] => none
  | c :: rest =>
    if c = ']' || c = '}' then some rest
    else if c = '\n' then none
    else splitAtCloser rest

/-- Fuelled scanner for re.sub(r'[\[\{].*?[\]\}]', '', s): a non-greedy
span opens at '[' or '{' and closes at the nearest following ']' or '}'
reachable without crossing a newline; an opener with no such closer stays
(main.py line 732).  Fuel is the length of the list, so the fuel-out
branch is never taken. -/
def sbF : Nat → List Char → List Char
  | 0, l => l
  | _ + 1, [] => []
  | f + 1, c :: rest =>
    if c = '[' || c = '{' then
      match splitAtCloser rest with
      | some rest2 => sbF f rest2
      | none => c :: sbF f rest
    else
      c :: sbF f rest

/-- Bracket/brace stripping step of the cleaning pipeline. -/
def stripBrackets (l : List Char) : List Char :=
  sbF l.length l

/-- Whether the next character is a word boundary position after a token
(end of string or a non-word character). -/
def boundaryB : List Char → Bool
  | [] => true
  | c :: _ => !isWordChar c

/-- re.sub(r'\b[12]\d{3}\b', '', s): remove standalone 4-digit tokens
starting with 1 or 2 at word boundaries (main.py line 735).  The Boolean
argument records whether the previous character of the original string is
a word character (false at the start of the string).  `yearTokAt rest`
checks that the three characters after the leading 1 or 2 are digits and
that a word boundary follows. -/
def yearTokAt : List Char → Bool
  | d2 :: d3 :: d4 :: rest2 => d2.isDigit && d3.isDigit && d4.isDigit && boundaryB rest2
  | _ => false

/-- Fuelled scanner for the standalone-year removal step; see `yearTokAt`. -/
def ryF : Nat → Bool → List Char → List Char
  | 0, _, l => l
  | _ + 1, _, [] => []
  | f + 1, prevW, c :: rest =>
    if !prevW && (c = '1' || c = '2') && yearTokAt rest then
      ryF f true (rest.drop 3)
    else
      c :: ryF f (isWordChar c) rest

/-- Standalone-year removal step. -/
def rmYearTok (l : List Char) : List Char :=
  ryF l.length false l

/-- Release-group names of main.py line 738, lowercased. -/
def groupNames : List String :=
  ["rarbg", "anoxmous", "scene", "proper", "rerip", "remux"]

/-- Attempt the tail of a release-group match at the current position:
l is the text after a separator character; the pattern
(rarbg|anoXmous|scene|proper|rerip|remux)(?:\.|_|-|$) must match
case-insensitively, consuming the trailing separator (or matching the end
of the string).  Returns the rest of the text after the whole match. -/
def tryGroup (l : List Char) : Option (List Char) :=
  (groupNames.filterMap fun nm =>
    if lowerL (l.take nm.data.length) = nm.data then
      match l.drop nm.data.length with
      | [] => some []
      | c :: r => if isSep c then some r else none
    else none).head?

/-- Fuelled scanner for re.sub(r'[\._-](rarbg|anoXmous|scene|proper|rerip|remux)(?:\.|_|-|$)', ' ', s)
(main.py line 738): each match is replaced by a single space and scanning
resumes after the consumed trailing separator. -/
def rgF : Nat → List Char → List Char
  | 0, l => l
  | _ + 1, [] => []
  | f + 1, c :: rest =>
    if isSep c then
      match tryGroup rest with
      | some rest2 => ' ' :: rgF f rest2
      | none => c :: rgF f rest
    else
      c :: rgF f rest

/-- Release-group removal step. -/
def rmRelGroups (l : List Char) : List Char :=
  rgF l.length l

/-- Quality-marker alternation of main.py line 741, expanded into literal
alternatives in the engine's preference order: alternatives are tried
left to right, and an optional element (\.? or s?) is tried greedily, so
h\.?264 expands to "h.264" then "h264" and directors?cut to
"directorscut" then "directorcut".  All entries are lowercase; matching
is case-insensitive. -/
def qualAlts : List String :=
  ["1080p", "720p", "480p", "2160p", "4k", "uhd", "ultrahd", "ultrahd",
   "bluray", "blu-ray", "bdrip", "webrip", "hdtv", "dvdrip",
   "h.264", "h264", "x.264", "x264", "hevc", "h.265", "h265", "x.265", "x265",
   "aac", "ac3", "dts", "amd64", "x86_64", "10bit", "avc", "vc1", "mpeg2",
   "aiff", "flac", "opus", "vorbis", "mp3", "eac3", "truehd", "dts-hd",
   "atmos", "imax", "remastered", "extended", "directorscut", "directorcut",
   "uncut", "proper", "rerip", "remux", "pdtv", "dsr", "ts", "tc", "r5",
   "dvdscr", "brrip", "xvid", "divx", "h264", "x264", "web", "web-dl", "web-rip"]

/-- Attempt a quality-marker match at the current position (which must be
preceded by a non-word character): the first alternative that matches
case-insensitively and is followed by a word boundary wins.  Returns the
rest of the text after the match. -/
def tryQual (l : List Char) : Option (List Char) :=
  (qualAlts.filterMap fun a =>
    if lowerL (l.take a.data.length) = a.data && boundaryB (l.drop a.data.length) then
      some (l.drop a.data.length)
    else none).head?

/-- Fuelled scanner for the quality-marker removal
re.sub(quality_markers, '', s, flags=IGNORECASE) of main.py line 742.
The Boolean argument records whether the previous character of the
original string is a word character; every alternative ends in a word
character, so after a removal the flag is true. -/
def rqF : Nat → Bool → List Char → List Char
  | 0, _, l => l
  | _ + 1, _, [] => []
  | f + 1, prevW, c :: rest =>
    if !prevW then
      match tryQual (c :: rest) with
      | some rest2 => rqF f true rest2
      | none => c :: rqF f (isWordChar c) rest
    else
      c :: rqF f (isWordChar c) rest

/-- Quality-marker removal step. -/
def rmQual (l : List Char) : List Char :=
  rqF l.length false l

mutual

/-- Scanner for re.sub(r'[._-]+', ' ', s) (main.py line 744): outside a
separator run, characters are copied. -/
def sepToSpace : List Char → List Char
  | [] => []
  | c :: rest => if isSep c then ' ' :: sepSkip rest else c :: sepToSpace rest

/-- Inside a separator run whose single replacement space has been
emitted: further separators are absorbed. -/
def sepSkip : List Char → List Char
  | [] => []
  | c :: rest => if isSep c then sepSkip rest else c :: sepToSpace rest

end

mutual

/-- Character-level ' '.join(s.split()) (main.py line 745): skip leading
whitespace. -/
def cwStart : List Char → List Char
  | [] => []
  | c :: rest => if pyWs c then cwStart rest else c :: cwWord rest

/-- Inside a word: copy until whitespace. -/
def cwWord : List Char → List Char
  | [] => []
  | c :: rest => if pyWs c then cwGap rest else c :: cwWord rest

/-- Inside an inter-word gap: emit one space only if another word follows,
so trailing whitespace is dropped. -/
def cwGap : List Char → List Char
  | [] => []
  | c :: rest => if pyWs c then cwGap rest else ' ' :: c :: cwWord rest

end

/-- Whitespace-collapse step. -/
def collapseWs (l : List Char) : List Char :=
  cwStart l

/-- The full title-cleaning pipeline of main.py lines 731-745, each regex
step followed by str.strip() exactly as in the source. -/
def cleanStem (l : List Char) : List Char :=
  let s1 := pyStrip (rmParenYear l)
  let s2 := pyStrip (stripBrackets s1)
  let s3 := pyStrip (rmYearTok s2)
  let s4 := pyStrip (rmRelGroups s3)
  let s5 := pyStrip (rmQual s4)
  let s6 := pyStrip (sepToSpace s5)
  collapseWs s6

/-- Normalizer of main.py lines 719-745: a raw filename stem becomes a
clean title and an optional year. -/
def normalizeStem (l : List Char) : List Char × Option (List Char) :=
  (cleanStem l, extractYear l)

/-- String-level wrapper of the normalizer. -/
def normalizeStr (s : String) : String × Option String :=
  ((⟨cleanStem s.data⟩ : String), (extractYear s.data).map fun y => (⟨y⟩ : String))

/-- os.path.splitext(filename)[0] for a plain basename: the extension
starts at the last dot, unless every character before that dot is a dot. -/
def stemOf (s : String) : String :=
  match ((s.data.enum.filter fun p => p.2 = '.').map fun p => p.1).getLast? with
  | none => s
  | some i => if (s.data.take i).all (fun c => c = '.') then s else ⟨s.data.take i⟩

/-- Subtractive-notation table of `_number_to_roman` (main.py lines 858-859). -/
def romanTable : List (Nat × String) :=
  [(1000, "M"), (900, "CM"), (500, "D"), (400, "CD"), (100, "C"), (90, "XC"),
   (50, "L"), (40, "XL"), (10, "X"), (9, "IX"), (5, "V"), (4, "IV"), (1, "I")]

/-- Greedy conversion of a natural number to a Roman numeral
(`_number_to_roman`, main.py lines 856-867); 0 yields the empty string. -/
def numberToRoman (n : Nat) : String :=
  (romanTable.foldl
    (fun acc p => (acc.1 ++ String.join (List.replicate (acc.2 / p.1) p.2), acc.2 % p.1))
    ("", n)).1

/-- Value of a digit run, as Python int() on a decimal string. -/
def digitsToNat (l : List Char) : Nat :=
  l.foldl (fun a c => 10 * a + (c.toNat - 48)) 0

/-- Fuelled scanner for re.sub(r'\b\d+\b', lambda m: number_to_roman(int(m.group())), query)
(main.py line 798): every maximal word-character run consisting solely of
digits is replaced by its Roman numeral; all other characters pass
through. -/
def a2rF : Nat → List Char → List Char
  | 0, l => l
  | _ + 1, [] => []
  | f + 1, c :: rest =>
    if isWordChar c then
      (if (c :: rest.takeWhile isWordChar).all Char.isDigit then
        (numberToRoman (digitsToNat (c :: rest.takeWhile isWordChar))).data
      else
        c :: rest.takeWhile isWordChar) ++ a2rF f (rest.dropWhile isWordChar)
    else
      c :: a2rF f rest

/-- String-level Arabic-digit-to-Roman-numeral transform used by rung 3 of
the fallback ladder. -/
def arabicToRoman (s : String) : String :=
  ⟨a2rF s.data.length s.data⟩

/-- Fuelled scanner for Python str.split() (whitespace split, no empty
words), used for the two-word fallback (main.py line 805). -/
def splitF : Nat → List Char → List (List Char)
  | 0, _ => []
  | _ + 1, [] => []
  | f + 1, c :: rest =>
    if pyWs c then
      splitF f rest
    else
      (c :: rest.takeWhile (fun x => !pyWs x)) :: splitF f (rest.dropWhile (fun x => !pyWs x))

/-- Python str.split() on a character list. -/
def pySplitL (l : List Char) : List (List Char) :=
  splitF l.length l

/-- Python ' '.join on a list of words. -/
def joinWordsL : List (List Char) → List Char
  | [] => []
  | [w] => w
  | w :: ws => w ++ ' ' :: joinWordsL ws

/-- A TMDB search-result entry as consumed by the resolver: title, an
optional release_date field (possibly absent or empty), and an id. -/
structure TMDBMovie where
  title : String
  release_date : Option String
  id : Nat
deriving DecidableEq, Repr

/-- The record the resolver constructs from a hit (main.py lines 834-838). -/
structure TMDBResult where
  title : String
  year : String
  id : Nat
deriving DecidableEq, Repr

/-- Construction of the result record from the top hit: the year is the
first four characters of release_date, or "UNKNOWN" when the field is
absent or falsy (empty). -/
def mkResult (m : TMDBMovie) : TMDBResult :=
  { title := m.title
    year := match m.release_date with
      | none => "UNKNOWN"
      | some d => if d = "" then "UNKNOWN" else ⟨d.data.take 4⟩
    id := m.id }

/-- Outcome of one network request to the search endpoint. -/
inductive NetResponse where
  | ok : List TMDBMovie → NetResponse
  | timeout : NetResponse
  | connError : NetResponse
deriving DecidableEq, Repr

/-- The metadata provider, a deterministic oracle for a session: a query
string and optional year parameter yield a response. -/
def Provider : Type := String → Option String → NetResponse

/-- The session cache self.tmdb_cache, an association list newest-first. -/
def Cache : Type := List (String × TMDBResult)

/-- Cache lookup. -/
def lookupC : List (String × TMDBResult) → String → Option TMDBResult
  | [], _ => none
  | (k, v) :: rest, key => if k = key then some v else lookupC rest key

/-- The cache key f-string f"{query}:{year}" (main.py line 775); a missing
year renders as Python None. -/
def cacheKey (q : String) (y : Option String) : String :=
  q ++ ":" ++ (match y with | some s => s | none => "None")

/-- The per-variant skip test of main.py line 812: empty query or the
bare word "the" (case-insensitive). -/
def skipQ (s : String) : Bool :=
  s = "" || lowerS s = "the"

/-- Error dialog kinds shown by the except clauses of main.py lines
847-850. -/
inductive ErrDialog where
  | timeoutMsg : ErrDialog
  | connMsg : ErrDialog
deriving DecidableEq, Repr

/-- Everything observable about one search_tmdb invocation: the returned
value, the cache afterwards, the network requests issued in order, and
the error dialog popped, if any. -/
structure SearchOutcome where
  result : Option TMDBResult
  cache : List (String × TMDBResult)
  calls : List (String × Option String)
  dialog : Option ErrDialog
deriving DecidableEq, Repr

/-- The ordered fallback ladder built by main.py lines 788-808:
(query, year) when a year is present; (query, no year); both variants of
the digits-to-Roman transform when it changes the query; both variants of
the first two words when the query has more than two words. -/
def buildSearches (q : String) (y : Option String) : List (String × Option String) :=
  (match y with | some yy => [(q, some yy)] | none => [])
  ++ [(q, none)]
  ++ (if arabicToRoman q = q then []
      else [(arabicToRoman q, y), (arabicToRoman q, none)])
  ++ (if 2 < (pySplitL q.data).length then
        [((⟨joinWordsL ((pySplitL q.data).take 2)⟩ : String), y),
         ((⟨joinWordsL ((pySplitL q.data).take 2)⟩ : String), none)]
      else [])

/-- The loop of main.py lines 811-843 over the candidate list: skipped
variants issue no request; a timeout or connection error aborts the loop
with an error dialog and a None result; an empty result set falls through
to the next candidate; a non-empty result set stores the constructed
record in the cache under origKey and returns it. -/
def runSearches (prov : String → Option String → NetResponse) (origKey : String)
    (cache : List (String × TMDBResult)) :
    List (String × Option String) → SearchOutcome
  | [] => ⟨none, cache, [], none⟩
  | (sq, sy) :: rest =>
    if skipQ sq then
      runSearches prov origKey cache rest
    else
      match prov sq sy with
      | NetResponse.timeout => ⟨none, cache, [(sq, sy)], some ErrDialog.timeoutMsg⟩
      | NetResponse.connError => ⟨none, cache, [(sq, sy)], some ErrDialog.connMsg⟩
      | NetResponse.ok [] =>
        let o := runSearches prov origKey cache rest
        ⟨o.result, o.cache, (sq, sy) :: o.calls, o.dialog⟩
      | NetResponse.ok (m :: _) =>
        ⟨some (mkResult m), (origKey, mkResult m) :: cache, [(sq, sy)], none⟩

/-- search_tmdb (main.py lines 773-854): cache check first; with no API
key configured the raise lands in the generic except clause, returning
None with no request and no dialog; otherwise the fallback ladder runs. -/
def searchTmdb (apiKey : String) (prov : String → Option String → NetResponse)
    (cache : List (String × TMDBResult)) (q : String) (y : Option String) : SearchOutcome :=
  match lookupC cache (cacheKey q y) with
  | some r => ⟨some r, cache, [], none⟩
  | none =>
    if apiKey = "" then ⟨none, cache, [], none⟩
    else runSearches prov (cacheKey q y) cache (buildSearches q y)

/-- The candidates of the ladder that are actually sent (not skipped). -/
def execSearches (q : String) (y : Option String) : List (String × Option String) :=
  (buildSearches q y).filter fun p => !skipQ p.1

/-- Observable outcome of processing a batch of already-split stems
sequentially through normalization and resolution, as the loop of
_process_files_thread does (main.py lines 706-768). -/
structure BatchOutcome where
  results : List (Option TMDBResult)
  cache : List (String × TMDBResult)
  calls : List (String × Option String)
  dialogs : List ErrDialog
deriving DecidableEq, Repr

/-- Sequential batch processing: each stem is normalized and resolved,
threading the cache; requests and dialogs are concatenated in order. -/
def processBatch (apiKey : String) (prov : String → Option String → NetResponse)
    (cache : List (String × TMDBResult)) : List String → BatchOutcome
  | [] => ⟨[], cache, [], []⟩
  | stem :: rest =>
    let n := normalizeStr stem
    let o := searchTmdb apiKey prov cache n.1 n.2
    let b := processBatch apiKey prov o.cache rest
    ⟨o.result :: b.results, b.cache, o.calls ++ b.calls, o.dialog.toList ++ b.dialogs⟩

/-- Startup credential warning of main.py lines 996-1001: the environment
value is stripped; if the result is empty, one session-level warning is
printed, independent of how many files are later processed. -/
def sessionWarnings (envValue : String) : List String :=
  if (⟨pyStrip envValue.data⟩ : String) = "" then
    ["TMDB_API_KEY not found in environment"]
  else []

/-- A provider whose every response is an empty result set. -/
def provEmptyAll : String → Option String → NetResponse :=
  fun _ _ => NetResponse.ok []

/-- A provider whose every request times out. -/
def provTimeoutAll : String → Option String → NetResponse :=
  fun _ _ => NetResponse.timeout

/-- A sample catalog entry. -/
def rockyMovie : TMDBMovie :=
  { title := "Rocky II", release_date := some "1979-06-15", id := 1367 }

/-- A provider that knows the sample entry under one exact query. -/
def provRocky : String → Option String → NetResponse :=
  fun sq _ => if sq = "Rocky II" then NetResponse.ok [rockyMovie] else NetResponse.ok []

/-- A provider that answers the year-qualified query with an empty set and
times out on the year-less query. -/
def provTimeoutSecond : String → Option String → NetResponse :=
  fun _ sy => match sy with
    | some _ => NetResponse.ok []
    | none => NetResponse.timeout

/-- Whether some '[' or '{' of the text is followed (anywhere later) by a
']' or '}', i.e. whether the bracket-stripping scanner finds a match. -/
def hasOpenClose : List Char → Bool
  | [] => false
  | c :: rest => ((c = '[' || c = '{') && (splitAtCloser rest).isSome) || hasOpenClose rest

/-- Whether the text contains a parenthesized 4-digit group. -/
def hasParenYear : List Char → Bool
  | [] => false
  | c :: rest => (c = '(' && parenYearAt rest) || hasParenYear rest

/-- Whether the standalone-year scanner finds a match, carrying the same
previous-character state as the scanner. -/
def hasYearTok : Bool → List Char → Bool
  | _, [] => false
  | prevW, c :: rest =>
    (!prevW && (c = '1' || c = '2') && yearTokAt rest) || hasYearTok (isWordChar c) rest

/-- Whether the quality-marker scanner finds a match, carrying the same
previous-character state as the scanner. -/
def hasQualTok : Bool → List Char → Bool
  | _, [] => false
  | prevW, c :: rest => (!prevW && (tryQual (c :: rest)).isSome) || hasQualTok (isWordChar c) rest

/-- Shape of a captured standalone year: four digits, the first 1 or 2. -/
def isYearTok : List Char → Bool
  | [y1, y2, y3, y4] => (y1 = '1' || y1 = '2') && y2.isDigit && y3.isDigit && y4.isDigit
  | _ => false

/-! ## Resolver lemmas -/

theorem lookupC_head (k : String) (v : TMDBResult) (c : List (String × TMDBResult)) :
    lookupC ((k, v) :: c) k = some v := by
  simp [lookupC]

theorem runSearches_success_cache (prov : String → Option String → NetResponse)
    (k : String) (c : List (String × TMDBResult)) (ls : List (String × Option String))
    (r : TMDBResult) (h : (runSearches prov k c ls).result = some r) :
    (runSearches prov k c ls).cache = (k, r) :: c := by
  induction ls with
  | nil => simp [runSearches] at h
  | cons a rest ih =>
    obtain ⟨sq, sy⟩ := a
    by_cases hs : skipQ sq = true
    · simp only [runSearches, hs, if_pos] at h ⊢
      exact ih h
    · have hs' : skipQ sq = false := by simpa using hs
      cases hp : prov sq sy with
      | timeout => simp [runSearches, hs', hp] at h
      | connError => simp [runSearches, hs', hp] at h
      | ok ms =>
        cases ms with
        | nil =>
          simp only [runSearches, hs', hp, Bool.false_eq_true, if_neg] at h ⊢
          exact ih h
        | cons m ms2 =>
          simp only [runSearches, hs', hp, Bool.false_eq_true, if_neg] at h ⊢
          simp at h
          simp [h]

theorem runSearches_success_decomp (prov : String → Option String → NetResponse)
    (k : String) (c : List (String × TMDBResult)) (ls : List (String × Option String))
    (r : TMDBResult) (h : (runSearches prov k c ls).result = some r) :
    ∃ pre sq sy post m ms,
      ls.filter (fun p => !skipQ p.1) = pre ++ (sq, sy) :: post ∧
      (∀ p ∈ pre, prov p.1 p.2 = NetResponse.ok []) ∧
      prov sq sy = NetResponse.ok (m :: ms) ∧
      r = mkResult m ∧
      (runSearches prov k c ls).calls = pre ++ [(sq, sy)] := by
  induction ls with
  | nil => simp [runSearches] at h
  | cons a rest ih =>
    obtain ⟨sq0, sy0⟩ := a
    by_cases hs : skipQ sq0 = true
    · simp only [runSearches, hs, if_pos] at h ⊢
      simpa [List.filter_cons, hs] using ih h
    · have hs' : skipQ sq0 = false := by simpa using hs
      cases hp : prov sq0 sy0 with
      | timeout => simp [runSearches, hs', hp] at h
      | connError => simp [runSearches, hs', hp] at h
      | ok ms0 =>
        cases ms0 with
        | nil =>
          simp only [runSearches, hs', hp, Bool.false_eq_true, if_neg] at h ⊢
          obtain ⟨pre, sq, sy, post, m, ms, hf, hpre, hp2, hr, hcalls⟩ := ih h
          refine ⟨(sq0, sy0) :: pre, sq, sy, post, m, ms, ?_, ?_, hp2, hr, ?_⟩
          · simp [List.filter_cons, hs', hf]
          · intro p hmem
            rcases List.mem_cons.mp hmem with hcase | hcase
            · subst hcase; exact hp
            · exact hpre p hcase
          · simp [hcalls]
        | cons m0 ms0' =>
          refine ⟨[], sq0, sy0, rest.filter (fun p => !skipQ p.1), m0, ms0', ?_, by simp, hp, ?_, ?_⟩
          · simp [List.filter_cons, hs']
          · simp [runSearches, hs', hp] at h
            exact h.symm
          · simp [runSearches, hs', hp]

theorem runSearches_all_empty (prov : String → Option String → NetResponse)
    (k : String) (c : List (String × TMDBResult)) (ls : List (String × Option String))
    (h : ∀ p ∈ ls, skipQ p.1 = false → prov p.1 p.2 = NetResponse.ok []) :
    runSearches prov k c ls = ⟨none, c, ls.filter (fun p => !skipQ p.1), none⟩ := by
  induction ls with
  | nil => simp [runSearches]
  | cons a rest ih =>
    obtain ⟨sq, sy⟩ := a
    have hrest : ∀ p ∈ rest, skipQ p.1 = false → prov p.1 p.2 = NetResponse.ok [] := by
      intro p hmem hskip
      exact h p (List.mem_cons_of_mem _ hmem) hskip
    by_cases hs : skipQ sq = true
    · simp [runSearches, hs, List.filter_cons, ih hrest]
    · have hs' : skipQ sq = false := by simpa using hs
      have hp : prov sq sy = NetResponse.ok [] := h (sq, sy) (List.mem_cons_self _ _) hs'
      simp [runSearches, hs', hp, List.filter_cons, ih hrest]

theorem runSearches_skip_all (prov : String → Option String → NetResponse)
    (k : String) (c : List (String × TMDBResult)) (ls : List (String × Option String))
    (h : ∀ p ∈ ls, skipQ p.1 = true) :
    runSearches prov k c ls = ⟨none, c, [], none⟩ := by
  have h2 : ∀ p ∈ ls, skipQ p.1 = false → prov p.1 p.2 = NetResponse.ok [] := by
    intro p hmem hskip
    rw [h p hmem] at hskip
    cases hskip
  rw [runSearches_all_empty prov k c ls h2]
  have hnil : ls.filter (fun p => !skipQ p.1) = [] := by
    apply List.filter_eq_nil_iff.mpr
    intro p hmem
    simp [h p hmem]
  rw [hnil]

theorem runSearches_abort (prov : String → Option String → NetResponse)
    (k : String) (c : List (String × TMDBResult)) (ls : List (String × Option String))
    (pre post : List (String × Option String)) (sq : String) (sy : Option String)
    (hdec : ls.filter (fun p => !skipQ p.1) = pre ++ (sq, sy) :: post)
    (hpre : ∀ p ∈ pre, prov p.1 p.2 = NetResponse.ok [])
    (hfail : prov sq sy = NetResponse.timeout ∨ prov sq sy = NetResponse.connError) :
    runSearches prov k c ls =
      ⟨none, c, pre ++ [(sq, sy)],
        some (if prov sq sy = NetResponse.timeout then ErrDialog.timeoutMsg
              else ErrDialog.connMsg)⟩ := by
  induction ls generalizing pre with
  | nil => simp at hdec
  | cons a rest ih =>
    obtain ⟨sq0, sy0⟩ := a
    by_cases hs : skipQ sq0 = true
    · rw [List.filter_cons] at hdec
      simp only [hs, Bool.not_true] at hdec
      simp only [Bool.false_eq_true, if_neg, not_false_iff, reduceIte] at hdec
      simp only [runSearches, hs, if_pos]
      exact ih pre hdec hpre
    · have hs' : skipQ sq0 = false := by simpa using hs
      rw [List.filter_cons] at hdec
      simp only [hs', Bool.not_false, if_pos, reduceIte] at hdec
      cases pre with
      | nil =>
        rw [List.nil_append] at hdec
        injection hdec with h1 h2
        injection h1 with ha hb
        subst ha
        subst hb
        rcases hfail with hf | hf
        · simp [runSearches, hs', hf]
        · simp [runSearches, hs', hf]
      | cons b pre2 =>
        rw [List.cons_append] at hdec
        injection hdec with h1 h2
        have hpok : prov sq0 sy0 = NetResponse.ok [] := by
          have hb := hpre b (List.mem_cons_self _ _)
          rw [← h1] at hb
          exact hb
        have hpre2 : ∀ p ∈ pre2, prov p.1 p.2 = NetResponse.ok [] := by
          intro p hmem
          exact hpre p (List.mem_cons_of_mem _ hmem)
        have hrec := ih pre2 h2 hpre2
        simp [runSearches, hs', hpok, hrec, ← h1]

theorem searchTmdb_no_key (prov : String → Option String → NetResponse)
    (q : String) (y : Option String) :
    searchTmdb "" prov [] q y = ⟨none, [], [], none⟩ := by
  simp [searchTmdb, lookupC]

theorem processBatch_no_key (prov : String → Option String → NetResponse)
    (stems : List String) :
    processBatch "" prov [] stems = ⟨stems.map (fun _ => none), [], [], []⟩ := by
  induction stems with
  | nil => simp [processBatch]
  | cons s rest ih => simp [processBatch, searchTmdb_no_key, ih]

/-! ## Claim theorems: resolver -/

/-- C1 counterexample: for the file "Rocky.II.1979.DVDRip.avi" the
normalizer yields clean title "Rocky II" and year "1979"; when both
queries for "Rocky II" return empty result sets the resolver gives up
after exactly those two requests, and the Roman-to-Arabic variant
"Rocky 2" is never attempted. -/
theorem c1_rocky2_never_attempted :
    normalizeStr (stemOf "Rocky.II.1979.DVDRip.avi") = ("Rocky II", some "1979") ∧
    (searchTmdb "K" provEmptyAll [] "Rocky II" (some "1979")).calls =
      [("Rocky II", some "1979"), ("Rocky II", none)] ∧
    (searchTmdb "K" provEmptyAll [] "Rocky II" (some "1979")).result = none ∧
    "Rocky 2" ∉ ((searchTmdb "K" provEmptyAll [] "Rocky II" (some "1979")).calls.map Prod.fst) := by
  decide

/-- C1 amended: the fallback transform of the ladder converts Arabic
digit tokens to Roman numerals, not Roman numerals to Arabic.  A clean
title "Rocky 2" adds the variant "Rocky II" to its ladder, while the
clean title "Rocky II" (which has no digits) is left unchanged by the
transform, so its ladder consists of the two "Rocky II" rungs only and
the variant "Rocky 2" is never generated. -/
theorem c1_roman_direction :
    arabicToRoman "Rocky 2" = "Rocky II" ∧
    buildSearches "Rocky 2" (some "1979") =
      [("Rocky 2", some "1979"), ("Rocky 2", none),
       ("Rocky II", some "1979"), ("Rocky II", none)] ∧
    arabicToRoman "Rocky II" = "Rocky II" ∧
    buildSearches "Rocky II" (some "1979") =
      [("Rocky II", some "1979"), ("Rocky II", none)] := by
  decide

/-- C2 counterexample: a resolution in which the first request times out
and a resolution in which every rung returns an empty result set both
return the same value None, so the caller of search_tmdb cannot
discriminate a network failure from an exhausted ladder by the returned
value; only the modal error dialog differs. -/
theorem c2_indistinguishable_return :
    (searchTmdb "K" provTimeoutAll [] "Rocky II" (some "1979")).result =
      (searchTmdb "K" provEmptyAll [] "Rocky II" (some "1979")).result ∧
    (searchTmdb "K" provTimeoutAll [] "Rocky II" (some "1979")).result = none ∧
    (searchTmdb "K" provTimeoutAll [] "Rocky II" (some "1979")).dialog =
      some ErrDialog.timeoutMsg ∧
    (searchTmdb "K" provEmptyAll [] "Rocky II" (some "1979")).dialog = none := by
  decide

/-- C2 amended: a timeout or connectivity failure on any rung aborts the
entire fallback ladder (no further rungs are attempted after the failing
request), leaves the cache unchanged, pops the corresponding error
dialog, and makes search_tmdb return None, the same value as the
"not found" outcome, so the distinction is surfaced only through the
dialog side effect and not through the returned value. -/
theorem c2_failure_aborts_ladder (key : String)
    (prov : String → Option String → NetResponse)
    (cache : List (String × TMDBResult)) (q : String) (y : Option String)
    (pre post : List (String × Option String)) (sq : String) (sy : Option String)
    (hkey : key ≠ "")
    (hmiss : lookupC cache (cacheKey q y) = none)
    (hdec : execSearches q y = pre ++ (sq, sy) :: post)
    (hpre : ∀ p ∈ pre, prov p.1 p.2 = NetResponse.ok [])
    (hfail : prov sq sy = NetResponse.timeout ∨ prov sq sy = NetResponse.connError) :
    searchTmdb key prov cache q y =
      ⟨none, cache, pre ++ [(sq, sy)],
        some (if prov sq sy = NetResponse.timeout then ErrDialog.timeoutMsg
              else ErrDialog.connMsg)⟩ := by
  simp only [execSearches] at hdec
  have h1 : searchTmdb key prov cache q y =
      runSearches prov (cacheKey q y) cache (buildSearches q y) := by
    simp [searchTmdb, hmiss, hkey]
  rw [h1]
  exact runSearches_abort prov (cacheKey q y) cache (buildSearches q y) pre post sq sy
    hdec hpre hfail

theorem c2_failure_aborts_ladder_witness :
    searchTmdb "K" provTimeoutSecond [] "Rocky II" (some "1979") =
      ⟨none, [], [("Rocky II", some "1979"), ("Rocky II", none)],
        some (if provTimeoutSecond "Rocky II" none = NetResponse.timeout
              then ErrDialog.timeoutMsg else ErrDialog.connMsg)⟩ :=
  c2_failure_aborts_ladder "K" provTimeoutSecond [] "Rocky II" (some "1979")
    [("Rocky II", some "1979")] [] "Rocky II" none (by decide) (by decide) (by decide)
    (by decide) (Or.inl (by decide))

/-- C5: resolving the same (title, year) a second time within a session
returns exactly the record stored by the first successful resolution,
issues no network request, pops no dialog, and leaves the cache
unchanged. -/
theorem c5_second_resolution_cached (key : String)
    (prov : String → Option String → NetResponse)
    (cache : List (String × TMDBResult)) (q : String) (y : Option String) (r : TMDBResult)
    (h : (searchTmdb key prov cache q y).result = some r) :
    searchTmdb key prov (searchTmdb key prov cache q y).cache q y =
      ⟨some r, (searchTmdb key prov cache q y).cache, [], none⟩ := by
  cases hc : lookupC cache (cacheKey q y) with
  | some r0 =>
    have h1 : searchTmdb key prov cache q y = ⟨some r0, cache, [], none⟩ := by
      simp [searchTmdb, hc]
    rw [h1] at h ⊢
    simp only [Option.some.injEq] at h
    subst h
    simp [searchTmdb, hc]
  | none =>
    by_cases hk : key = ""
    · have h1 : searchTmdb key prov cache q y = ⟨none, cache, [], none⟩ := by
        simp [searchTmdb, hc, hk]
      rw [h1] at h
      simp at h
    · have h1 : searchTmdb key prov cache q y =
          runSearches prov (cacheKey q y) cache (buildSearches q y) := by
        simp [searchTmdb, hc, hk]
      rw [h1] at h ⊢
      rw [runSearches_success_cache prov (cacheKey q y) cache (buildSearches q y) r h]
      simp [searchTmdb, lookupC]

theorem c5_second_resolution_cached_witness :
    searchTmdb "K" provRocky (searchTmdb "K" provRocky [] "Rocky II" (some "1979")).cache
        "Rocky II" (some "1979") =
      ⟨some ⟨"Rocky II", "1979", 1367⟩,
       (searchTmdb "K" provRocky [] "Rocky II" (some "1979")).cache, [], none⟩ :=
  c5_second_resolution_cached "K" provRocky [] "Rocky II" (some "1979")
    ⟨"Rocky II", "1979", 1367⟩ (by decide)

/-- C6: when a resolution succeeds, the ladder was executed in order up
to the first rung with a non-empty result set (all earlier executed
rungs returned empty sets, and no request was made after the hit), and
the constructed record is stored under the original cache key
cacheKey q y computed from the initial clean title and year, not under
the fallback variant's key. -/
theorem c6_short_circuit_original_key (key : String)
    (prov : String → Option String → NetResponse)
    (cache : List (String × TMDBResult)) (q : String) (y : Option String) (r : TMDBResult)
    (hmiss : lookupC cache (cacheKey q y) = none)
    (h : (searchTmdb key prov cache q y).result = some r) :
    ∃ pre sq sy post m ms,
      execSearches q y = pre ++ (sq, sy) :: post ∧
      (∀ p ∈ pre, prov p.1 p.2 = NetResponse.ok []) ∧
      prov sq sy = NetResponse.ok (m :: ms) ∧
      r = mkResult m ∧
      (searchTmdb key prov cache q y).calls = pre ++ [(sq, sy)] ∧
      (searchTmdb key prov cache q y).cache = (cacheKey q y, r) :: cache := by
  by_cases hk : key = ""
  · exfalso
    have h1 : searchTmdb key prov cache q y = ⟨none, cache, [], none⟩ := by
      simp [searchTmdb, hmiss, hk]
    rw [h1] at h
    simp at h
  · have h1 : searchTmdb key prov cache q y =
        runSearches prov (cacheKey q y) cache (buildSearches q y) := by
      simp [searchTmdb, hmiss, hk]
    rw [h1] at h ⊢
    obtain ⟨pre, sq, sy, post, m, ms, hf, hpre, hp, hr, hcalls⟩ :=
      runSearches_success_decomp prov (cacheKey q y) cache (buildSearches q y) r h
    exact ⟨pre, sq, sy, post, m, ms, hf, hpre, hp, hr, hcalls,
      runSearches_success_cache prov (cacheKey q y) cache (buildSearches q y) r h⟩

theorem c6_short_circuit_original_key_witness :
    ∃ pre sq sy post m ms,
      execSearches "Rocky II" (some "1979") = pre ++ (sq, sy) :: post ∧
      (∀ p ∈ pre, provRocky p.1 p.2 = NetResponse.ok []) ∧
      provRocky sq sy = NetResponse.ok (m :: ms) ∧
      (⟨"Rocky II", "1979", 1367⟩ : TMDBResult) = mkResult m ∧
      (searchTmdb "K" provRocky [] "Rocky II" (some "1979")).calls = pre ++ [(sq, sy)] ∧
      (searchTmdb "K" provRocky [] "Rocky II" (some "1979")).cache =
        (cacheKey "Rocky II" (some "1979"), ⟨"Rocky II", "1979", 1367⟩) :: [] :=
  c6_short_circuit_original_key "K" provRocky [] "Rocky II" (some "1979")
    ⟨"Rocky II", "1979", 1367⟩ (by decide) (by decide)

/-- C7: when every executed rung of the ladder returns an empty result
set, the resolver returns None (the "not found" outcome of the code),
pops no dialog, and leaves the cache exactly as it was (the sentinel is
never stored), so a later retry of the same (title, year) against any
provider behaves exactly as if the failed resolution had never
happened. -/
theorem c7_sentinel_never_cached (key : String)
    (prov : String → Option String → NetResponse)
    (cache : List (String × TMDBResult)) (q : String) (y : Option String)
    (hmiss : lookupC cache (cacheKey q y) = none)
    (hempty : ∀ p ∈ execSearches q y, prov p.1 p.2 = NetResponse.ok []) :
    (searchTmdb key prov cache q y).result = none ∧
    (searchTmdb key prov cache q y).cache = cache ∧
    (searchTmdb key prov cache q y).dialog = none ∧
    ∀ prov2 : String → Option String → NetResponse,
      searchTmdb key prov2 (searchTmdb key prov cache q y).cache q y =
        searchTmdb key prov2 cache q y := by
  by_cases hk : key = ""
  · simp [searchTmdb, hmiss, hk]
  · have hall : ∀ p ∈ buildSearches q y, skipQ p.1 = false →
        prov p.1 p.2 = NetResponse.ok [] := by
      intro p hmem hskip
      exact hempty p (List.mem_filter.mpr ⟨hmem, by simp [hskip]⟩)
    have h1 : searchTmdb key prov cache q y =
        ⟨none, cache, (buildSearches q y).filter (fun p => !skipQ p.1), none⟩ := by
      simp [searchTmdb, hmiss, hk,
        runSearches_all_empty prov (cacheKey q y) cache (buildSearches q y) hall]
    rw [h1]
    simp

theorem c7_sentinel_never_cached_witness :
    (searchTmdb "K" provEmptyAll [] "Rocky II" (some "1979")).result = none ∧
    (searchTmdb "K" provEmptyAll [] "Rocky II" (some "1979")).cache = [] ∧
    (searchTmdb "K" provEmptyAll [] "Rocky II" (some "1979")).dialog = none ∧
    ∀ prov2 : String → Option String → NetResponse,
      searchTmdb "K" prov2 (searchTmdb "K" provEmptyAll [] "Rocky II" (some "1979")).cache
          "Rocky II" (some "1979") =
        searchTmdb "K" prov2 [] "Rocky II" (some "1979") :=
  c7_sentinel_never_cached "K" provEmptyAll [] "Rocky II" (some "1979")
    (by decide) (by decide)

/-- C4: with no API key configured (the environment value strips to the
empty string), the startup warning is printed exactly once for the
session, and a batch of any number of files resolves every file to None
immediately: no network request is ever issued and no per-file dialog is
shown. -/
theorem c4_missing_key_no_network (envValue : String)
    (prov : String → Option String → NetResponse) (stems : List String)
    (h : pyStrip envValue.data = []) :
    sessionWarnings envValue = ["TMDB_API_KEY not found in environment"] ∧
    (processBatch (⟨pyStrip envValue.data⟩ : String) prov [] stems).calls = [] ∧
    (processBatch (⟨pyStrip envValue.data⟩ : String) prov [] stems).dialogs = [] ∧
    (processBatch (⟨pyStrip envValue.data⟩ : String) prov [] stems).results =
      stems.map (fun _ => none) := by
  have hk : (⟨pyStrip envValue.data⟩ : String) = "" := by rw [h]
  rw [hk]
  refine ⟨?_, ?_, ?_, ?_⟩
  · simp [sessionWarnings, hk]
  · rw [processBatch_no_key]
  · rw [processBatch_no_key]
  · rw [processBatch_no_key]

theorem c4_missing_key_no_network_witness :
    sessionWarnings "  " = ["TMDB_API_KEY not found in environment"] ∧
    (processBatch (⟨pyStrip "  ".data⟩ : String) provRocky []
      ["Rocky.II.1979.DVDRip", "Movie.Two"]).calls = [] ∧
    (processBatch (⟨pyStrip "  ".data⟩ : String) provRocky []
      ["Rocky.II.1979.DVDRip", "Movie.Two"]).dialogs = [] ∧
    (processBatch (⟨pyStrip "  ".data⟩ : String) provRocky []
      ["Rocky.II.1979.DVDRip", "Movie.Two"]).results =
      ["Rocky.II.1979.DVDRip", "Movie.Two"].map (fun _ => none) :=
  c4_missing_key_no_network "  " provRocky ["Rocky.II.1979.DVDRip", "Movie.Two"] (by decide)

/-! ## Character and whitespace lemmas -/

theorem toLower_eq_self_of_lt (c : Char) (h : c.toNat < 65) : c.toLower = c := by
  simp only [Char.toLower]
  split
  · next hcond => exact absurd hcond.1 (by omega)
  · rfl

theorem toNat_ge_of_lower_the (c : Char)
    (h : c.toLower = 't' ∨ c.toLower = 'h' ∨ c.toLower = 'e') : 65 ≤ c.toNat := by
  by_contra hlt
  push_neg at hlt
  rw [toLower_eq_self_of_lt c hlt] at h
  rcases h with h | h | h <;> subst h <;> exact absurd hlt (by decide)

theorem toNat_le_of_isDigit (c : Char) (h : c.isDigit = true) : c.toNat ≤ 57 := by
  have h2 : c.val ≤ 57 := by
    simp only [Char.isDigit, Bool.and_eq_true, decide_eq_true_eq] at h
    exact h.2
  exact UInt32.toNat_le_of_le (by decide) h2

theorem toNat_lt_of_pyWs (c : Char) (h : pyWs c = true) : c.toNat < 65 := by
  simp only [pyWs, Bool.or_eq_true, decide_eq_true_eq] at h
  rcases h with ((((h | h) | h) | h) | h) | h <;> subst h <;> decide

theorem no_digit_of_lower_the (t : List Char) (h : lowerL t = "the".data) :
    ∀ c ∈ t, c.isDigit = false := by
  intro c hc
  have hmem : c.toLower ∈ "the".data := by
    rw [← h]
    exact List.mem_map_of_mem Char.toLower hc
  have h65 : 65 ≤ c.toNat := by
    apply toNat_ge_of_lower_the
    simpa using hmem
  by_contra hd
  simp only [Bool.not_eq_false] at hd
  have := toNat_le_of_isDigit c hd
  omega

theorem no_ws_of_lower_the (t : List Char) (h : lowerL t = "the".data) :
    ∀ c ∈ t, pyWs c = false := by
  intro c hc
  have hmem : c.toLower ∈ "the".data := by
    rw [← h]
    exact List.mem_map_of_mem Char.toLower hc
  have h65 : 65 ≤ c.toNat := by
    apply toNat_ge_of_lower_the
    simpa using hmem
  by_contra hw
  simp only [Bool.not_eq_false] at hw
  have := toNat_lt_of_pyWs c hw
  omega

theorem a2rF_no_digit (f : Nat) (l : List Char) (hf : l.length ≤ f)
    (h : ∀ c ∈ l, c.isDigit = false) : a2rF f l = l := by
  induction f generalizing l with
  | zero => rfl
  | succ f ih =>
    cases l with
    | nil => rfl
    | cons c rest =>
      have hlen : rest.length ≤ f := by
        simp only [List.length_cons] at hf
        omega
      by_cases hw : isWordChar c = true
      · have hrun : ((c :: rest.takeWhile isWordChar).all Char.isDigit) = false := by
          simp [List.all_cons, h c (List.mem_cons_self _ _)]
        have hdrop : (rest.dropWhile isWordChar).length ≤ f :=
          le_trans ((List.dropWhile_sublist isWordChar).length_le) hlen
        have hmem : ∀ x ∈ rest.dropWhile isWordChar, x.isDigit = false := by
          intro x hx
          exact h x (List.mem_cons_of_mem _ ((List.dropWhile_sublist _).mem hx))
        simp only [a2rF, hw, if_pos, hrun, Bool.false_eq_true, if_neg, ih _ hdrop hmem]
        simp only [if_false]
        rw [List.cons_append, List.takeWhile_append_dropWhile]
      · have hw' : isWordChar c = false := by simpa using hw
        have hmem : ∀ x ∈ rest, x.isDigit = false := by
          intro x hx
          exact h x (List.mem_cons_of_mem _ hx)
        simp [a2rF, hw', ih rest hlen hmem]

theorem cwStart_head (l : List Char) : ∀ c, (cwStart l).head? = some c → pyWs c = false := by
  induction l with
  | nil => intro c h; simp [cwStart] at h
  | cons a rest ih =>
    intro c h
    by_cases hw : pyWs a = true
    · rw [cwStart, if_pos hw] at h
      exact ih c h
    · have hw' : pyWs a = false := by simpa using hw
      rw [cwStart, if_neg (by simp [hw'])] at h
      simp only [List.head?_cons, Option.some.injEq] at h
      subst h
      exact hw'

theorem cw_last (l : List Char) :
    (∀ c, (cwStart l).getLast? = some c → pyWs c = false) ∧
    (∀ c, (cwWord l).getLast? = some c → pyWs c = false) ∧
    (∀ c, (cwGap l).getLast? = some c → pyWs c = false) := by
  induction l with
  | nil =>
    refine ⟨?_, ?_, ?_⟩ <;> intro c h <;> simp [cwStart, cwWord, cwGap] at h
  | cons a rest ih =>
    obtain ⟨ih1, ih2, ih3⟩ := ih
    by_cases hw : pyWs a = true
    · refine ⟨?_, ?_, ?_⟩ <;> intro c h
      · rw [cwStart, if_pos hw] at h
        exact ih1 c h
      · rw [cwWord, if_pos hw] at h
        exact ih3 c h
      · rw [cwGap, if_pos hw] at h
        exact ih3 c h
    · have hw' : pyWs a = false := by simpa using hw
      have hword : ∀ c, (a :: cwWord rest).getLast? = some c → pyWs c = false := by
        intro c h
        cases hcw : cwWord rest with
        | nil =>
          rw [hcw] at h
          simp only [List.getLast?_singleton, Option.some.injEq] at h
          subst h
          exact hw'
        | cons b r2 =>
          rw [hcw, List.getLast?_cons_cons] at h
          apply ih2 c
          rw [hcw]
          exact h
      refine ⟨?_, ?_, ?_⟩ <;> intro c h
      · rw [cwStart, if_neg (by simp [hw'])] at h
        exact hword c h
      · rw [cwWord, if_neg (by simp [hw'])] at h
        exact hword c h
      · rw [cwGap, if_neg (by simp [hw'])] at h
        rw [List.getLast?_cons_cons] at h
        exact hword c h

theorem pyStrip_eq_self (l : List Char)
    (h1 : ∀ c, l.head? = some c → pyWs c = false)
    (h2 : ∀ c, l.getLast? = some c → pyWs c = false) : pyStrip l = l := by
  unfold pyStrip
  have d1 : l.dropWhile pyWs = l := by
    cases l with
    | nil => rfl
    | cons a t =>
      rw [List.dropWhile_cons]
      simp [h1 a rfl]
  rw [d1]
  have d2 : l.reverse.dropWhile pyWs = l.reverse := by
    cases hr : l.reverse with
    | nil => rfl
    | cons a t =>
      rw [List.dropWhile_cons]
      have hga : l.getLast? = some a := by
        rw [← List.head?_reverse, hr]
        rfl
      simp [h2 a hga]
  rw [d2, List.reverse_reverse]

theorem pyStrip_collapseWs (l : List Char) : pyStrip (collapseWs l) = collapseWs l := by
  exact pyStrip_eq_self (collapseWs l) (cwStart_head l) (cw_last l).1

theorem splitF_nil (f : Nat) : splitF f [] = [] := by
  cases f <;> rfl

theorem pySplitL_no_ws (l : List Char) (hne : l ≠ []) (h : ∀ c ∈ l, pyWs c = false) :
    pySplitL l = [l] := by
  unfold pySplitL
  cases l with
  | nil => exact absurd rfl hne
  | cons c rest =>
    have hc : pyWs c = false := h c (List.mem_cons_self _ _)
    have htake : rest.takeWhile (fun x => !pyWs x) = rest := by
      apply List.takeWhile_eq_self_iff.mpr
      intro x hx
      simp [h x (List.mem_cons_of_mem _ hx)]
    have hdrop : rest.dropWhile (fun x => !pyWs x) = [] := by
      apply List.dropWhile_eq_nil_iff.mpr
      intro x hx
      simp [h x (List.mem_cons_of_mem _ hx)]
    rw [List.length_cons, splitF, if_neg (by simp [hc]), htake, hdrop, splitF_nil]

theorem buildSearches_all_skip (t : String) (y : Option String)
    (ht : t = "" ∨ lowerS t = "the") :
    ∀ p ∈ buildSearches t y, skipQ p.1 = true := by
  have hskip : skipQ t = true := by
    rcases ht with h | h
    · simp [skipQ, h]
    · simp [skipQ, h]
  have hlow : t = "" ∨ lowerL t.data = "the".data := by
    rcases ht with h | h
    · exact Or.inl h
    · right
      have hd : (lowerS t).data = "the".data := by rw [h]
      simpa [lowerS] using hd
  have ha2r : arabicToRoman t = t := by
    rcases hlow with h | h
    · subst h
      rfl
    · have hid := a2rF_no_digit t.data.length t.data le_rfl (no_digit_of_lower_the t.data h)
      cases t with
      | mk d =>
        show (⟨a2rF d.length d⟩ : String) = ⟨d⟩
        rw [show a2rF d.length d = d from hid]
  have hsplit : ¬ 2 < (pySplitL t.data).length := by
    rcases hlow with h | h
    · subst h
      simp [pySplitL, splitF]
    · have hne : t.data ≠ [] := by
        intro hn
        rw [hn] at h
        simp [lowerL] at h
      rw [pySplitL_no_ws t.data hne (no_ws_of_lower_the t.data h)]
      simp
  intro p hp
  cases y with
  | none =>
    simp [buildSearches, ha2r, hsplit] at hp
    subst hp
    exact hskip
  | some yy =>
    simp [buildSearches, ha2r, hsplit] at hp
    rcases hp with hp | hp <;> subst hp <;> exact hskip

/-- C8: for every raw stem whose clean title, after trimming, is empty or
equals "the" case-insensitively, the resolver skips every query variant of
the ladder: it makes zero network requests, pops no dialog, leaves the
cache unchanged and returns None, the code's "not found" outcome. -/
theorem c8_unsearchable_query_skipped (raw key : String)
    (prov : String → Option String → NetResponse) (cache : List (String × TMDBResult))
    (t : String) (y : Option String)
    (hn : normalizeStr raw = (t, y))
    (hthe : pyStrip t.data = [] ∨ lowerL (pyStrip t.data) = "the".data)
    (hmiss : lookupC cache (cacheKey t y) = none) :
    searchTmdb key prov cache t y = ⟨none, cache, [], none⟩ := by
  unfold normalizeStr at hn
  obtain ⟨ht1, hy⟩ := Prod.mk.inj hn
  have hdata : t.data = cleanStem raw.data := by rw [← ht1]
  have hps : pyStrip t.data = t.data := by
    rw [hdata]
    simp only [cleanStem]
    exact pyStrip_collapseWs _
  rw [hps] at hthe
  have ht : t = "" ∨ lowerS t = "the" := by
    rcases hthe with h | h
    · left
      cases t with
      | mk d =>
        simp only [String.data] at h
        rw [show d = ([] : List Char) from h]
    · right
      unfold lowerS
      cases t with
      | mk d =>
        simp only [String.data] at h ⊢
        rw [show lowerL d = "the".data from h]
  have hall := buildSearches_all_skip t y ht
  by_cases hk : key = ""
  · simp [searchTmdb, hmiss, hk]
  · simp [searchTmdb, hmiss, hk, runSearches_skip_all prov (cacheKey t y) cache _ hall]

theorem c8_unsearchable_query_skipped_witness :
    searchTmdb "K" provEmptyAll [] "The" none = ⟨none, [], [], none⟩ :=
  c8_unsearchable_query_skipped "The.1080p" "K" provEmptyAll [] "The" none (by decide)
    (Or.inr (by decide)) (by decide)

/-! ## Bracket stripping lemmas -/

theorem splitAtCloser_length (l r : List Char) (h : splitAtCloser l = some r) :
    r.length < l.length := by
  induction l generalizing r with
  | nil => simp [splitAtCloser] at h
  | cons c rest ih =>
    rw [splitAtCloser] at h
    by_cases hc : (c = ']' || c = '}') = true
    · rw [if_pos hc] at h
      injection h with h
      subst h
      simp
    · rw [if_neg hc] at h
      by_cases hn : c = '\n'
      · rw [if_pos hn] at h
        cases h
      · rw [if_neg hn] at h
        have := ih r h
        simp only [List.length_cons]
        omega

theorem sbF_fuel_irrel (f : Nat) : ∀ (g : Nat) (l : List Char),
    l.length ≤ f → l.length ≤ g → sbF f l = sbF g l := by
  induction f with
  | zero =>
    intro g l hf _
    have : l = [] := List.length_eq_zero.mp (Nat.le_zero.mp hf)
    subst this
    cases g <;> rfl
  | succ f ih =>
    intro g l hf hg
    cases l with
    | nil => cases g <;> rfl
    | cons c rest =>
      cases g with
      | zero => simp at hg
      | succ g =>
        simp only [List.length_cons] at hf hg
        show sbF (f + 1) (c :: rest) = sbF (g + 1) (c :: rest)
        rw [sbF, sbF]
        by_cases hc : (c = '[' || c = '{') = true
        · rw [if_pos hc, if_pos hc]
          cases hs : splitAtCloser rest with
          | some rest2 =>
            have hl := splitAtCloser_length rest rest2 hs
            exact ih g rest2 (by omega) (by omega)
          | none =>
            rw [ih g rest (by omega) (by omega)]
        · rw [if_neg hc, if_neg hc, ih g rest (by omega) (by omega)]

theorem stripBrackets_cons_nonopener (x : Char) (l : List Char)
    (hx : ¬(x = '[' ∨ x = '{')) :
    stripBrackets (x :: l) = x :: stripBrackets l := by
  show sbF (x :: l).length (x :: l) = x :: sbF l.length l
  rw [List.length_cons, sbF, if_neg (by simpa using hx)]

theorem splitAtCloser_no_closer (l : List Char) (h : ∀ x ∈ l, ¬(x = ']' ∨ x = '}')) :
    splitAtCloser l = none := by
  induction l with
  | nil => rfl
  | cons c rest ih =>
    rw [splitAtCloser, if_neg (by simpa using h c (List.mem_cons_self _ _))]
    by_cases hn : c = '\n'
    · rw [if_pos hn]
    · rw [if_neg hn]
      exact ih fun x hx => h x (List.mem_cons_of_mem _ hx)

theorem splitAtCloser_span (mid suf : List Char) (c : Char) (hc : c = ']' ∨ c = '}')
    (hmid : ∀ x ∈ mid, ¬(x = ']' ∨ x = '}' ∨ x = '\n')) :
    splitAtCloser (mid ++ c :: suf) = some suf := by
  induction mid with
  | nil =>
    rw [List.nil_append, splitAtCloser, if_pos (by simpa using hc)]
  | cons x mid' ih =>
    have hx := hmid x (List.mem_cons_self _ _)
    rw [List.cons_append, splitAtCloser,
      if_neg (by simp only [Bool.or_eq_true, decide_eq_true_eq]; tauto),
      if_neg (by tauto)]
    exact ih fun z hz => hmid z (List.mem_cons_of_mem _ hz)

theorem stripBrackets_no_openclose (l : List Char) (h : hasOpenClose l = false) :
    stripBrackets l = l := by
  induction l with
  | nil => rfl
  | cons x rest ih =>
    rw [hasOpenClose] at h
    simp only [Bool.or_eq_false_iff, Bool.and_eq_false_iff] at h
    obtain ⟨h1, h2⟩ := h
    have hrest := ih h2
    by_cases hx : (x = '[' || x = '{') = true
    · have hnone : splitAtCloser rest = none := by
        rcases h1 with h1 | h1
        · exfalso
          simp only [Bool.or_eq_true, decide_eq_true_eq] at hx
          rcases hx with hx | hx <;> simp [hx] at h1
        · cases hs : splitAtCloser rest with
          | none => rfl
          | some r =>
            rw [hs] at h1
            simp at h1
      show sbF (x :: rest).length (x :: rest) = x :: rest
      rw [List.length_cons, sbF, if_pos hx, hnone]
      show x :: sbF rest.length rest = x :: rest
      rw [show sbF rest.length rest = stripBrackets rest from rfl, hrest]
    · rw [stripBrackets_cons_nonopener x rest (by simpa using hx), hrest]

/-- C10 counterexample: a span whose interior contains a newline is not a
match of the span regex ('.' without DOTALL cannot cross a newline), so
the program leaves "[a\nb]" unchanged even though it opens with '[' and
closes with ']'; the same span with a space interior is removed. -/
theorem c10_newline_span_not_removed :
    stripBrackets ['[', 'a', '\n', 'b', ']'] = ['[', 'a', '\n', 'b', ']'] ∧
    stripBrackets ['[', 'a', ' ', 'b', ']'] = [] := by
  decide

/-- C10 amended: the bracket/brace stripping step removes every non-greedy
span that opens with '[' or '{' and closes with the nearest following ']'
or '}' reachable without crossing a newline, mismatched combinations
included; and a text in which no opening '[' or '{' has a closing
delimiter after it within its line is left unchanged. -/
theorem c10_bracket_spans (pre mid suf : List Char) (o c : Char)
    (ho : o = '[' ∨ o = '{') (hc : c = ']' ∨ c = '}')
    (hpre : ∀ x ∈ pre, ¬(x = '[' ∨ x = '{'))
    (hmid : ∀ x ∈ mid, ¬(x = ']' ∨ x = '}' ∨ x = '\n')) :
    stripBrackets (pre ++ o :: (mid ++ c :: suf)) = pre ++ stripBrackets suf ∧
    ∀ l : List Char, hasOpenClose l = false → stripBrackets l = l := by
  constructor
  · induction pre with
    | nil =>
      rw [List.nil_append, List.nil_append]
      show sbF (o :: (mid ++ c :: suf)).length (o :: (mid ++ c :: suf)) = stripBrackets suf
      rw [List.length_cons, sbF, if_pos (by simpa using ho),
        splitAtCloser_span mid suf c hc hmid]
      apply sbF_fuel_irrel
      · simp only [List.length_append, List.length_cons]
        omega
      · exact le_rfl
    | cons x pre' ih =>
      rw [List.cons_append,
        stripBrackets_cons_nonopener x (pre' ++ o :: (mid ++ c :: suf))
          (hpre x (List.mem_cons_self _ _)),
        ih fun z hz => hpre z (List.mem_cons_of_mem _ hz), List.cons_append]
  · exact stripBrackets_no_openclose

theorem c10_bracket_spans_witness :
    stripBrackets "ab[xy\x7dc".data = "ab".data ++ stripBrackets "c".data ∧
    ∀ l : List Char, hasOpenClose l = false → stripBrackets l = l :=
  c10_bracket_spans "ab".data "xy".data "c".data '[' '\x7d' (Or.inl rfl) (Or.inr rfl)
    (by decide) (by decide)

/-! ## Year extraction lemmas -/

theorem sepYearAt_shape (rest : List Char) (h : sepYearAt rest = true) :
    ∃ y1 y2 y3 y4 s2 tail, rest = y1 :: y2 :: y3 :: y4 :: s2 :: tail ∧
      isYearTok [y1, y2, y3, y4] = true ∧ isSepY s2 = true := by
  rcases rest with _ | ⟨y1, _ | ⟨y2, _ | ⟨y3, _ | ⟨y4, _ | ⟨s2, tail⟩⟩⟩⟩⟩
  · simp [sepYearAt] at h
  · simp [sepYearAt] at h
  · simp [sepYearAt] at h
  · simp [sepYearAt] at h
  · simp [sepYearAt] at h
  · simp only [sepYearAt, Bool.and_eq_true] at h
    refine ⟨y1, y2, y3, y4, s2, tail, rfl, ?_, h.2⟩
    simp only [isYearTok, Bool.and_eq_true]
    exact h.1

theorem findSepYear_sound (l y : List Char) (h : findSepYear l = some y) :
    isYearTok y = true ∧
    ∃ pre suf t1 t2, l = pre ++ t1 :: (y ++ t2 :: suf) ∧
      isSepY t1 = true ∧ isSepY t2 = true := by
  induction l with
  | nil => simp [findSepYear] at h
  | cons c rest ih =>
    rw [findSepYear] at h
    by_cases hcond : (isSepY c && sepYearAt rest) = true
    · rw [if_pos hcond] at h
      injection h with h
      rw [Bool.and_eq_true] at hcond
      obtain ⟨y1, y2, y3, y4, s2, tail, hshape, hyt, hs2⟩ := sepYearAt_shape rest hcond.2
      subst hshape
      have hy4 : y = [y1, y2, y3, y4] := by
        rw [← h]
        rfl
      subst hy4
      exact ⟨hyt, ⟨[], tail, c, s2, by simp, hcond.1, hs2⟩⟩
    · rw [if_neg hcond] at h
      obtain ⟨hy, pre, suf, t1, t2, hdec, h1, h2⟩ := ih h
      exact ⟨hy, c :: pre, suf, t1, t2, by rw [List.cons_append, hdec], h1, h2⟩

theorem findSepYear_complete (pre y suf : List Char) (s1 s2 : Char)
    (hs1 : isSepY s1 = true) (hs2 : isSepY s2 = true) (hy : isYearTok y = true) :
    (findSepYear (pre ++ s1 :: (y ++ s2 :: suf))).isSome = true := by
  induction pre with
  | nil =>
    match y, hy with
    | [y1, y2, y3, y4], hy =>
      rw [List.nil_append]
      have hat : sepYearAt (y1 :: y2 :: y3 :: y4 :: s2 :: suf) = true := by
        simp only [isYearTok, Bool.and_eq_true] at hy
        simp only [sepYearAt, Bool.and_eq_true]
        exact ⟨hy, hs2⟩
      rw [findSepYear, if_pos (by simp [hs1, hat])]
      simp
  | cons x pre' ih =>
    rw [List.cons_append, findSepYear]
    by_cases hcond : (isSepY x && sepYearAt (pre' ++ s1 :: (y ++ s2 :: suf))) = true
    · rw [if_pos hcond]
      simp
    · rw [if_neg hcond]
      exact ih

/-- C3 counterexample: both stems satisfy the claim premise (no
parenthesized year; a standalone 4-digit token in 1900-2999 bounded by
non-digit characters), yet "Movie 1999" gets no year extracted (the
batch-path regex requires separator characters on both sides, and the
end of the stem is not one), and "a_1999_b" keeps the extracted token in
its cleaned title (underscores are word characters, so the removal step
never fires, while the separator step turns them into spaces). -/
theorem c3_word_boundary_counterexample :
    normalizeStr "Movie 1999" = ("Movie", none) ∧
    normalizeStr "a_1999_b" = ("a 1999 b", some "1999") := by
  decide

/-- C3 amended: with no parenthesized 4-digit group in the stem, a
standalone 4-digit token starting with 1 or 2 is extracted as the year
exactly when it is enclosed by separator characters (dot, underscore,
hyphen or whitespace) on both sides; whenever such a token exists, the
extracted year is some such separator-enclosed token of the stem.  (The
extracted token is not guaranteed to be absent from the cleaned title:
underscore-enclosed tokens survive cleaning.) -/
theorem c3_separator_bounded_year (name pre y suf : List Char) (s1 s2 : Char)
    (hdec : name = pre ++ s1 :: (y ++ s2 :: suf))
    (hs1 : isSepY s1 = true) (hs2 : isSepY s2 = true) (hy : isYearTok y = true)
    (hparen : findParenYear name = none) :
    ∃ y2, (normalizeStem name).2 = some y2 ∧ isYearTok y2 = true ∧
      ∃ pre2 suf2 t1 t2, name = pre2 ++ t1 :: (y2 ++ t2 :: suf2) ∧
        isSepY t1 = true ∧ isSepY t2 = true := by
  have hsome : (findSepYear name).isSome = true := by
    rw [hdec]
    exact findSepYear_complete pre y suf s1 s2 hs1 hs2 hy
  obtain ⟨y2, hy2⟩ := Option.isSome_iff_exists.mp hsome
  obtain ⟨hyt, pre2, suf2, t1, t2, hd2, h1, h2⟩ := findSepYear_sound name y2 hy2
  refine ⟨y2, ?_, hyt, pre2, suf2, t1, t2, hd2, h1, h2⟩
  simp [normalizeStem, extractYear, hparen, hy2]

theorem c3_separator_bounded_year_witness :
    ∃ y2, (normalizeStem "Movie.1999.x".data).2 = some y2 ∧ isYearTok y2 = true ∧
      ∃ pre2 suf2 t1 t2, "Movie.1999.x".data = pre2 ++ t1 :: (y2 ++ t2 :: suf2) ∧
        isSepY t1 = true ∧ isSepY t2 = true :=
  c3_separator_bounded_year "Movie.1999.x".data "Movie".data "1999".data "x".data '.' '.'
    (by decide) (by decide) (by decide) (by decide) (by decide)

/-! ## Cleaning idempotence lemmas -/

theorem rpF_id (f : Nat) (l : List Char) (hf : l.length ≤ f)
    (h : hasParenYear l = false) : rpF f l = l := by
  induction f generalizing l with
  | zero => rfl
  | succ f ih =>
    cases l with
    | nil => rfl
    | cons c rest =>
      rw [hasParenYear, Bool.or_eq_false_iff] at h
      rw [rpF, if_neg (by simp [h.1])]
      rw [ih rest (by simp at hf; omega) h.2]

theorem ryF_id (f : Nat) (p : Bool) (l : List Char) (hf : l.length ≤ f)
    (h : hasYearTok p l = false) : ryF f p l = l := by
  induction f generalizing p l with
  | zero => rfl
  | succ f ih =>
    cases l with
    | nil => rfl
    | cons c rest =>
      rw [hasYearTok, Bool.or_eq_false_iff] at h
      rw [ryF, if_neg (by simp [h.1])]
      rw [ih (isWordChar c) rest (by simp at hf; omega) h.2]

theorem rgF_id (f : Nat) (l : List Char) (hf : l.length ≤ f)
    (h : ∀ c ∈ l, isSep c = false) : rgF f l = l := by
  induction f generalizing l with
  | zero => rfl
  | succ f ih =>
    cases l with
    | nil => rfl
    | cons c rest =>
      rw [rgF, if_neg (by simp [h c (List.mem_cons_self _ _)])]
      rw [ih rest (by simp at hf; omega) fun x hx => h x (List.mem_cons_of_mem _ hx)]

theorem rqF_id (f : Nat) (p : Bool) (l : List Char) (hf : l.length ≤ f)
    (h : hasQualTok p l = false) : rqF f p l = l := by
  induction f generalizing p l with
  | zero => rfl
  | succ f ih =>
    cases l with
    | nil => rfl
    | cons c rest =>
      rw [hasQualTok, Bool.or_eq_false_iff] at h
      rw [rqF]
      by_cases hp : p = true
      · rw [if_neg (by simp [hp])]
        rw [ih (isWordChar c) rest (by simp at hf; omega) h.2]
      · have hp' : p = false := by simpa using hp
        subst hp'
        simp only [Bool.not_false, Bool.true_and] at h ⊢
        rw [if_pos trivial]
        cases htq : tryQual (c :: rest) with
        | some r =>
          rw [htq] at h
          simp at h
        | none =>
          rw [ih (isWordChar c) rest (by simp at hf; omega) h.2]

theorem sepToSpace_id (l : List Char) (h : ∀ c ∈ l, isSep c = false) :
    sepToSpace l = l := by
  induction l with
  | nil => rfl
  | cons c rest ih =>
    rw [sepToSpace, if_neg (by simp [h c (List.mem_cons_self _ _)])]
    rw [ih fun x hx => h x (List.mem_cons_of_mem _ hx)]

theorem cw_idem (l : List Char) :
    cwStart (cwStart l) = cwStart l ∧
    cwWord (cwWord l) = cwWord l ∧
    cwWord (cwGap l) = cwGap l := by
  induction l with
  | nil => exact ⟨rfl, rfl, rfl⟩
  | cons c rest ih =>
    obtain ⟨ih1, ih2, ih3⟩ := ih
    by_cases hw : pyWs c = true
    · refine ⟨?_, ?_, ?_⟩
      · rw [cwStart, if_pos hw, ih1]
      · rw [cwWord, if_pos hw, ih3]
      · rw [cwGap, if_pos hw, ih3]
    · have hw' : pyWs c = false := by simpa using hw
      refine ⟨?_, ?_, ?_⟩
      · rw [cwStart, if_neg (by simp [hw'])]
        rw [cwStart, if_neg (by simp [hw']), ih2]
      · rw [cwWord, if_neg (by simp [hw'])]
        rw [cwWord, if_neg (by simp [hw']), ih2]
      · rw [cwGap, if_neg (by simp [hw'])]
        rw [cwWord, if_pos (by decide)]
        rw [cwGap, if_neg (by simp [hw']), ih2]

/-- C9 counterexample: cleaning is not idempotent.  Bracket removal in
"(3[x]456)" joins "(3" with "456)" into a parenthesized 4-digit group
that only a second cleaning pass removes: the first pass yields "(3456)"
and re-cleaning that yields the empty string. -/
theorem c9_not_idempotent :
    cleanStem "(3[x]456)".data = "(3456)".data ∧
    cleanStem (cleanStem "(3[x]456)".data) = [] ∧
    cleanStem (cleanStem "(3[x]456)".data) ≠ cleanStem "(3[x]456)".data := by
  decide

/-- C9 amended: re-cleaning an already-cleaned title yields the same
string whenever the first pass's output contains no parenthesized
4-digit group, no bracket or brace span, no separator characters, no
boundary-delimited standalone 1xxx/2xxx token, and no quality-marker
match (conditions that every pass establishes except when a removal
joins characters into a new such pattern, as in the counterexample). -/
theorem c9_conditional_idempotent (s : String)
    (h1 : hasParenYear (cleanStem s.data) = false)
    (h2 : hasOpenClose (cleanStem s.data) = false)
    (h3 : ∀ c ∈ cleanStem s.data, isSep c = false)
    (h4 : hasYearTok false (cleanStem s.data) = false)
    (h5 : hasQualTok false (cleanStem s.data) = false) :
    cleanStem (cleanStem s.data) = cleanStem s.data := by
  have hx : cleanStem s.data = collapseWs (pyStrip (sepToSpace (pyStrip (rmQual (pyStrip
      (rmRelGroups (pyStrip (rmYearTok (pyStrip (stripBrackets (pyStrip
      (rmParenYear s.data)))))))))))) := rfl
  generalize ht : cleanStem s.data = t at h1 h2 h3 h4 h5 hx ⊢
  have hps : pyStrip t = t := by
    rw [hx]
    exact pyStrip_collapseWs _
  have hcw : collapseWs t = t := by
    rw [hx]
    exact (cw_idem _).1
  show collapseWs (pyStrip (sepToSpace (pyStrip (rmQual (pyStrip (rmRelGroups (pyStrip
    (rmYearTok (pyStrip (stripBrackets (pyStrip (rmParenYear t)))))))))))) = t
  rw [show rmParenYear t = t from rpF_id t.length t le_rfl h1, hps]
  rw [stripBrackets_no_openclose t h2, hps]
  rw [show rmYearTok t = t from ryF_id t.length false t le_rfl h4, hps]
  rw [show rmRelGroups t = t from rgF_id t.length t le_rfl h3, hps]
  rw [show rmQual t = t from rqF_id t.length false t le_rfl h5, hps]
  rw [sepToSpace_id t h3, hps, hcw]

theorem c9_conditional_idempotent_witness :
    cleanStem (cleanStem "The.Matrix.1999.1080p.BluRay.x264-GROUP".data) =
      cleanStem "The.Matrix.1999.1080p.BluRay.x264-GROUP".data :=
  c9_conditional_idempotent "The.Matrix.1999.1080p.BluRay.x264-GROUP"
    (by decide) (by decide) (by decide) (by decide) (by decide)
